import Mathlib

/-!
Verification of the scm-to-xls exporter (`src/scm-to-xls.py`): a shallow
embedding of the Source Accessor layer (git and hg backends) and the
Report Writer layer, with theorems settling the specification's claims.

Python string primitives are modelled on `List Char`, wrapped in `String`.
-/

namespace ScmToXls

/-! ## Python string primitives -/

/-- Python `s.split(sep)` for a one-character separator, on character lists.
`split` of the empty string is `[""]`, matching Python. -/
def pySplitChar (sep : Char) : List Char → List (List Char)
  | [] => [[]]
  | c :: cs =>
    let r := pySplitChar sep cs
    if c = sep then [] :: r
    else
      match r with
      | h :: t => (c :: h) :: t
      | [] => [[c]]

/-- Python `s.split(sep)` for a one-character separator, on strings. -/
def pySplitStr (s : String) (sep : Char) : List String :=
  (pySplitChar sep s.toList).map (fun l => ⟨l⟩)

/-- The characters Python's no-argument `str.strip()` removes. -/
def isPyStripSpace (c : Char) : Bool :=
  c = ' ' || c = '\t' || c = '\n' || c = '\x0d' || c = '\x0b' || c = '\x0c'

/-- Python `s.strip(chars)`: drop the characters satisfying `p` from both
ends of the string. -/
def pyStripChars (p : Char → Bool) (s : String) : String :=
  ⟨((s.toList.dropWhile p).reverse.dropWhile p).reverse⟩

/-- Python `s.strip()` (no argument): strip surrounding whitespace. -/
def pyStrip (s : String) : String := pyStripChars isPyStripSpace s

/-- Python `s.rstrip(chars)`: drop the characters satisfying `p` from the
right end only. -/
def pyRstrip (p : Char → Bool) (s : String) : String :=
  ⟨(s.toList.reverse.dropWhile p).reverse⟩

/-- Python `s.strip("\n")` as the git backend applies it to commit
messages: newline characters dropped from both ends. -/
def pyStripNewlines (s : String) : String := pyStripChars (· = '\n') s

/-- Python `s.splitlines()` restricted to `\n`-separated text (the diff-stat
text the backend produces uses `\n` only): the empty string yields no lines,
and a trailing newline does not produce a trailing empty line. -/
def pySplitlines (s : String) : List String :=
  if s.toList = [] then []
  else
    let parts := pySplitStr s '\n'
    if s.toList.getLast? = some '\n' then parts.dropLast else parts

/-! ### Structure lemmas for the split primitive -/

/-- The first piece of the split is everything before the first separator. -/
theorem pySplitChar_head (sep : Char) (l : List Char) :
    ∃ t, pySplitChar sep l = l.takeWhile (· ≠ sep) :: t := by
  induction l with
  | nil => exact ⟨[], rfl⟩
  | cons c cs ih =>
    by_cases hc : c = sep
    · refine ⟨pySplitChar sep cs, ?_⟩
      simp [pySplitChar, hc]
    · obtain ⟨t, ht⟩ := ih
      refine ⟨t, ?_⟩
      simp only [pySplitChar, if_neg hc, ht]
      simp [hc]

/-- When the separator occurs, the pieces after the first are the split of
the text after the first separator. -/
theorem pySplitChar_mem (sep : Char) (l : List Char) (h : sep ∈ l) :
    pySplitChar sep l
      = l.takeWhile (· ≠ sep) :: pySplitChar sep ((l.dropWhile (· ≠ sep)).tail) := by
  induction l with
  | nil => cases h
  | cons c cs ih =>
    by_cases hc : c = sep
    · simp [pySplitChar, hc]
    · have hcs : sep ∈ cs := by
        cases List.mem_cons.mp h with
        | inl h0 => exact absurd h0.symm hc
        | inr h1 => exact h1
      simp only [pySplitChar, if_neg hc, ih hcs]
      simp [hc]

/-- When the separator does not occur, the split is the whole list alone. -/
theorem pySplitChar_not_mem (sep : Char) (l : List Char) (h : sep ∉ l) :
    pySplitChar sep l = [l] := by
  induction l with
  | nil => rfl
  | cons c cs ih =>
    have hc : ¬ c = sep := by
      intro hc
      subst hc
      exact h (List.mem_cons_self c cs)
    have hcs : sep ∉ cs := fun hcs => h (List.mem_cons_of_mem c hcs)
    simp only [pySplitChar, if_neg hc, ih hcs]

/-! ## Data model -/

/-- A wall-clock timestamp as `datetime` exposes it (year, month, day,
hour, minute, second). -/
structure DateTime where
  year : Nat
  month : Nat
  day : Nat
  hour : Nat
  minute : Nat
  second : Nat
  deriving Repr, DecidableEq

/-- The canonical log entry (`LogEntry` in the source): one normalized
record per commit/changeset. -/
structure LogEntry where
  id : String
  msg : String
  author : String
  email : String
  time : DateTime
  diff : List String
  deriving Repr, DecidableEq

/-- A commit as the git backend (pygit2) presents it to `GitAccessor.get_log`:
`id` is the hex hash (`c.id.hex` and `str(c.id)` agree on it), `parents` the
parent hashes, `time` the already-converted local timestamp, and `diffStat`
the full-detail textual diff summary against the first parent
(`self._scm.diff(c, c.parents[0]).stats.format(GIT_DIFF_STATS_FULL, 1)`),
meaningful only when `parents` is nonempty. -/
structure GitCommit where
  id : String
  message : String
  committerName : String
  committerEmail : String
  time : DateTime
  parents : List String
  diffStat : String
  deriving Repr, DecidableEq

/-! ## Git accessor (`GitAccessor.get_log`, lines 52-76) -/

/-- Lines 58-62: split the diff-stat text into lines, drop the final
summary line when at least one line exists, and keep the part of each
remaining line before the first `|`, stripped of surrounding whitespace. -/
def normalizeDiff (s : String) : List String :=
  let ls := pySplitlines s
  let ls := if ls.length ≥ 1 then ls.dropLast else ls
  ls.map (fun d => pyStrip ((pySplitStr d '|').headD ""))

/-- The truthiness test `self._start_rev and c.id.hex == self._start_rev`
(line 73): `None` and the empty string are falsy, otherwise the identifiers
are compared for equality. -/
def startRevHit (startRev : Option String) (id : String) : Bool :=
  match startRev with
  | none => false
  | some s => !(s = "") && id = s

/-- Lines 56 and 64-70: the canonical entry built for one git commit.
A root commit (no parent) contributes the empty diff text. -/
def gitEntry (c : GitCommit) : LogEntry :=
  { id := c.id
    msg := pyStripNewlines c.message
    author := c.committerName
    email := c.committerEmail
    time := c.time
    diff := normalizeDiff (if c.parents = [] then "" else c.diffStat) }

/-- `GitAccessor.get_log` (lines 52-76) over the walked commit list
(newest first): each commit's entry is appended, then traversal stops when
the stop-revision test hits. -/
def gitGetLog (startRev : Option String) : List GitCommit → List LogEntry
  | [] => []
  | c :: rest =>
    let e := gitEntry c
    if startRevHit startRev c.id then [e]
    else e :: gitGetLog startRev rest

/-! ## Hg accessor (`HgAccessor.get_log`, lines 84-110) -/

/-- A changeset as hglib's `log()` yields it: a revision tuple with fields
`rev`, `node`, `tags`, `author`, `desc`, `date` (already decoded from
bytes; `tags` empty when the changeset has no tags). The tuple has no `id`
attribute. -/
structure HgChangeset where
  rev : String
  node : String
  tags : String
  author : String
  desc : String
  date : DateTime
  deriving Repr, DecidableEq

/-- The two runtime failures `HgAccessor.get_log` can raise: the
`IndexError` from `split("<")[1]` when the author field has no `<`
(line 102), and the `AttributeError` from `c.id.hex` on a revision tuple
that has no `id` attribute (line 107). -/
inductive HgError where
  | indexError
  | attributeError
  deriving Repr, DecidableEq

/-- Line 101: `str(c.author, 'utf-8').split("<")[0]`. -/
def hgAuthorName (a : String) : String :=
  (pySplitStr a '<').headD ""

/-- Line 102: `str(c.author, 'utf-8').split("<")[1].rstrip(">")`, raising
`IndexError` when the split yields fewer than two pieces. -/
def hgAuthorEmail (a : String) : Except HgError String :=
  match pySplitStr a '<' with
  | _ :: e :: _ => .ok (pyRstrip (· = '>') e)
  | _ => .error .indexError

/-- Lines 96 and 99: the composite identifier
`str(c.rev) + tag + " - " + str(c.node)` where `tag` is empty for an
untagged changeset and `" - " + tags` otherwise. -/
def hgId (c : HgChangeset) : String :=
  c.rev ++ (if c.tags.toList = [] then "" else " - " ++ c.tags) ++ " - " ++ c.node

/-- Lines 96-104: the canonical entry built for one hg changeset; fails
with `IndexError` when the author field has no `<`. -/
def hgEntry (c : HgChangeset) : Except HgError LogEntry :=
  match hgAuthorEmail c.author with
  | .error err => .error err
  | .ok email =>
    .ok { id := hgId c
          msg := c.desc
          author := hgAuthorName c.author
          email := email
          time := c.date
          diff := [] }

/-- Python truthiness of the stored stop revision: `None` and the empty
string are falsy. -/
def startRevTruthy (startRev : Option String) : Bool :=
  match startRev with
  | none => false
  | some s => !(s = "")

/-- `HgAccessor.get_log` (lines 84-110): each changeset's entry is built
and appended; then line 107 evaluates
`self._start_rev and c.id.hex == self._start_rev`, which raises
`AttributeError` whenever the stop revision is truthy because the hglib
revision tuple has no `id` attribute. -/
def hgGetLog (startRev : Option String) : List HgChangeset → Except HgError (List LogEntry)
  | [] => .ok []
  | c :: rest =>
    match hgEntry c with
    | .error err => .error err
    | .ok e =>
      if startRevTruthy startRev then .error .attributeError
      else
        match hgGetLog startRev rest with
        | .error err => .error err
        | .ok es => .ok (e :: es)

/-! ## Accessor construction (lines 47-50, 79-82, 113-116) -/

/-- What constructing an accessor can do: succeed, raise
`NotImplementedError`, or fail opening the repository. -/
inductive InitOutcome where
  | ok
  | notImplemented
  | repoOpenFailed
  deriving Repr, DecidableEq

/-- `GitAccessor.__init__` (lines 48-50): opens the repository; succeeds
exactly when the path holds a valid repository. -/
def gitInit (repoValid : Bool) : InitOutcome :=
  if repoValid then .ok else .repoOpenFailed

/-- `HgAccessor.__init__` (lines 80-82): calls `hglib.open` on the path;
succeeds exactly when the path holds a valid repository. It raises no
`NotImplementedError`. -/
def hgInit (repoValid : Bool) : InitOutcome :=
  if repoValid then .ok else .repoOpenFailed

/-- `SvnAccessor.__init__` (lines 114-116): raises
`NotImplementedError("Implement me!")` unconditionally, before any
repository access. -/
def svnInit (_repoValid : Bool) : InitOutcome :=
  .notImplemented

/-! ## Report writer (`Writer` and its two variants, lines 120-202) -/

/-- The slice of an openpyxl `Font` the writer sets. -/
structure FontS where
  bold : Bool := false
  name : Option String := none
  size : Option Nat := none
  deriving Repr, DecidableEq

/-- The slice of an openpyxl `Alignment` the writer sets. -/
structure AlignS where
  vertical : Option String := none
  wrapText : Bool := false
  shrinkToFit : Bool := false
  deriving Repr, DecidableEq

/-- Which sides of an openpyxl `Border` carry a thin black side. -/
structure BorderS where
  top : Bool := false
  left : Bool := false
  right : Bool := false
  bottom : Bool := false
  deriving Repr, DecidableEq

/-- A worksheet cell: its value and the style attributes the writer
assigns. A freshly materialized cell is empty and unstyled. -/
structure Cell where
  value : String := ""
  font : Option FontS := none
  fill : Option String := none
  border : Option BorderS := none
  alignment : Option AlignS := none
  deriving Repr, DecidableEq

/-- The worksheet: a list of rows of materialized cells, row 1 of the
sheet at index 0. -/
abbrev Sheet := List (List Cell)

def emptyCell : Cell := {}

def valueCell (s : String) : Cell := { value := s }

/-- Pad a list on the right to length `n`. -/
def padTo {α : Type} (l : List α) (n : Nat) (x : α) : List α :=
  l ++ List.replicate (n - l.length) x

/-- Apply `f` to cell `c` (0-based) of a row, materializing empty cells up
to it first — openpyxl creates a cell the moment it is addressed. -/
def setInRow (row : List Cell) (c : Nat) (f : Cell → Cell) : List Cell :=
  let row := padTo row (c + 1) emptyCell
  row.set c (f (row.getD c emptyCell))

/-- Apply `f` to the cell at row `r`, column `c` (both 0-based),
materializing rows and cells up to it. -/
def setCell (ws : Sheet) (r c : Nat) (f : Cell → Cell) : Sheet :=
  let ws := padTo ws (r + 1) ([] : List Cell)
  ws.set r (setInRow (ws.getD r []) c f)

/-- Set a cell's value (`ws['A1'] = ...`). -/
def setCellValue (ws : Sheet) (r c : Nat) (v : String) : Sheet :=
  setCell ws r c (fun cl => { cl with value := v })

/-- `ws.append(values)`: a new row of value cells after the last row. -/
def appendRow (ws : Sheet) (vals : List String) : Sheet :=
  ws ++ [vals.map valueCell]

/-- The writer's mutable state: its column list (`self._columns`) and the
active worksheet. Column widths are set once in `__init__` and touched by
no claim, so they are not carried. -/
structure WriterState where
  columns : List String
  sheet : Sheet
  deriving Repr, DecidableEq

/-- `Writer.__init__` (lines 121-134): the base five columns and a fresh
worksheet. -/
def initWriter : WriterState :=
  { columns := ["Date", "Commit-ID", "Message", "Author", "Changed files"]
    sheet := [] }

/-- Lines 143-148: bold font, solid fill, full thin border. -/
def styleHeaderCell (cl : Cell) : Cell :=
  { cl with
    font := some { bold := true }
    fill := some "000099ff"
    border := some { top := true, left := true, right := true, bottom := true } }

/-- `Writer.write_header` (lines 136-148): append a blank spacer row, then
the column-name row, then style each of its first `len(columns)` cells. -/
def writeHeaderBase (w : WriterState) : WriterState :=
  let sheet := appendRow w.sheet []
  let sheet := appendRow sheet w.columns
  let last := sheet.length - 1
  let sheet := (List.range w.columns.length).foldl
    (fun s i => setCell s last i styleHeaderCell) sheet
  { w with sheet := sheet }

/-- The two writer variants. -/
inductive WriterKind where
  | commitHistory
  | impactStatement
  deriving Repr, DecidableEq

/-- `CommitHistoryWriter.write_header` (lines 184-189) and
`ImpactStatementWriter.write_header` (lines 196-202): title and
generation-timestamp cells in row 1, the impact variant extending the
column list by its two extra headers before delegating to the base. `now`
is the rendered `datetime.now().isoformat(" ")` text. -/
def writeHeader (k : WriterKind) (now : String) (w : WriterState) : WriterState :=
  match k with
  | .commitHistory =>
    let sheet := setCellValue w.sheet 0 0 "Commit history"
    let sheet := setCellValue sheet 0 1 ("Generated on " ++ now)
    writeHeaderBase { w with sheet := sheet }
  | .impactStatement =>
    let sheet := setCellValue w.sheet 0 0 "Impact statement"
    let sheet := setCellValue sheet 0 1 ("Generated on " ++ now)
    writeHeaderBase
      { columns := w.columns ++ ["Affected testcases", "Tested with version"]
        sheet := sheet }

/-- Zero-pad a number to two digits, as `strftime` does for `%m %d %H %M %S`. -/
def pad2 (n : Nat) : String :=
  if n < 10 then "0" ++ toString n else toString n

/-- Zero-pad the year to four digits (`%Y`). -/
def pad4 (n : Nat) : String :=
  if n < 10 then "000" ++ toString n
  else if n < 100 then "00" ++ toString n
  else if n < 1000 then "0" ++ toString n
  else toString n

/-- `d.time.strftime("%Y-%m-%d %H:%M:%S")` (line 157). -/
def strftimeYmdHms (t : DateTime) : String :=
  pad4 t.year ++ "-" ++ pad2 t.month ++ "-" ++ pad2 t.day ++ " " ++
    pad2 t.hour ++ ":" ++ pad2 t.minute ++ ":" ++ pad2 t.second

/-- `"\n".join(d.diff)` (line 157). -/
def joinNl (l : List String) : String := String.intercalate "\n" l

/-- Line 157: the five values appended for one entry, in their fixed
order — formatted timestamp, identifier, message, author, changed files
joined by newline. `str()` on the already-string fields is the identity. -/
def dataRowValues (e : LogEntry) : List String :=
  [strftimeYmdHms e.time, e.id, e.msg, e.author, joinNl e.diff]

/-- Line 160: `Alignment(vertical="top")`. -/
def alignTopCell (cl : Cell) : Cell :=
  { cl with alignment := some { vertical := some "top" } }

/-- Line 162: `Font(name="Monospace", size=8)` on the identifier cell. -/
def monoFontCell (cl : Cell) : Cell :=
  { cl with font := some { name := some "Monospace", size := some 8 } }

/-- Line 163: `Font(size=10)` on the message cell. -/
def msgFontCell (cl : Cell) : Cell :=
  { cl with font := some { size := some 10 } }

/-- Line 164: wrapped, shrink-to-fit, top-aligned message cell. -/
def msgAlignCell (cl : Cell) : Cell :=
  { cl with alignment := some { vertical := some "top", wrapText := true, shrinkToFit := true } }

/-- Lines 168-169: left/right thin border on every data-row cell. -/
def borderLRCell (cl : Cell) : Cell :=
  { cl with border := some { left := true, right := true } }

/-- Lines 172-174: the closing left/right/bottom border. -/
def borderLRBCell (cl : Cell) : Cell :=
  { cl with border := some { left := true, right := true, bottom := true } }

/-- One iteration of the loop in `Writer.write_data` (lines 156-169):
append the entry's row, then style the first `cols` cells of that row
(`ascii_uppercase[:len(self._columns)]`). -/
def writeDataRow (cols : Nat) (sheet : Sheet) (e : LogEntry) : Sheet :=
  let sheet := appendRow sheet (dataRowValues e)
  let last := sheet.length - 1
  let sheet := (List.range cols).foldl (fun s i => setCell s last i alignTopCell) sheet
  let sheet := setCell sheet last 1 monoFontCell
  let sheet := setCell sheet last 2 msgFontCell
  let sheet := setCell sheet last 2 msgAlignCell
  (List.range cols).foldl (fun s i => setCell s last i borderLRCell) sheet

/-- `Writer.write_data` (lines 153-174): one styled row per entry of the
accessor's log, then the closing bottom-border pass over the first
`len(columns)` cells of the sheet's last row. -/
def writeData (entries : List LogEntry) (w : WriterState) : WriterState :=
  let sheet := entries.foldl (writeDataRow w.columns.length) w.sheet
  let last := sheet.length - 1
  { w with
    sheet := (List.range w.columns.length).foldl
      (fun s i => setCell s last i borderLRBCell) sheet }

/-- The orchestrator's write sequence (`main`, lines 261-262):
`write_header` then `write_data`, observed as the resulting worksheet. -/
def runExport (k : WriterKind) (now : String) (entries : List LogEntry) : Sheet :=
  (writeData entries (writeHeader k now initWriter)).sheet

/-- The column count each variant's claim names: 5 for the commit-history
report, 7 for the impact-statement report. -/
def headerWidth (k : WriterKind) : Nat :=
  match k with
  | .commitHistory => 5
  | .impactStatement => 7

/-! ## Spec-side definitions (for refinement comparisons) -/

/-- The substring of `s` strictly before the first occurrence of `sep`
(all of `s` when `sep` does not occur). -/
def beforeFirst (sep : Char) (s : String) : String :=
  ⟨s.toList.takeWhile (· ≠ sep)⟩

/-- The substring of `s` strictly between the first and the second
occurrence of `sep` (everything after the first occurrence when there is
no second one). -/
def betweenFirstSecond (sep : Char) (s : String) : String :=
  ⟨((s.toList.dropWhile (· ≠ sep)).tail).takeWhile (· ≠ sep)⟩

/-- The spec's normalization sentence, word for word: split the block into
lines, drop the final trailing summary line, and for each remaining line
keep only the substring preceding the first `|`, trimmed of surrounding
whitespace. -/
def specNormalizeDiff (s : String) : List String :=
  ((pySplitlines s).dropLast).map (fun d => pyStrip (beforeFirst '|' d))

/-- C7's email rule as the claim states it: the whole remainder after the
first `<`, with trailing `>` characters stripped; a parsing error when no
`<` is present. -/
def specEmailAsStated (a : String) : Except HgError String :=
  if '<' ∈ a.toList then
    .ok (pyRstrip (· = '>') ⟨(a.toList.dropWhile (· ≠ '<')).tail⟩)
  else .error .indexError

/-- C6's message rule as the claim states it: trailing newlines stripped,
leading characters preserved. -/
def specStripTrailingNewlines (s : String) : String :=
  ⟨(s.toList.reverse.dropWhile (· = '\n')).reverse⟩

/-- C6 amended: newline characters stripped from both ends — first the
leading ones, then the trailing ones — the interior untouched. -/
def specStripBothNewlines (s : String) : String :=
  specStripTrailingNewlines ⟨s.toList.dropWhile (· = '\n')⟩

/-! ## Helper lemmas: lists and the worksheet grid -/

theorem padTo_eq_self {α : Type} (l : List α) (n : Nat) (x : α) (h : n ≤ l.length) :
    padTo l n x = l := by
  simp [padTo, Nat.sub_eq_zero_of_le h]

theorem length_padTo {α : Type} (l : List α) (n : Nat) (x : α) :
    (padTo l n x).length = max l.length n := by
  simp [padTo]
  omega

theorem length_setInRow (row : List Cell) (c : Nat) (f : Cell → Cell) :
    (setInRow row c f).length = max row.length (c + 1) := by
  simp [setInRow, length_padTo]

theorem getD_append_last {α : Type} (s : List α) (row : α) (d : α) :
    (s ++ [row]).getD s.length d = row := by
  induction s with
  | nil => rfl
  | cons a t ih => simp [ih]

theorem set_append_last {α : Type} (s : List α) (row x : α) :
    (s ++ [row]).set s.length x = s ++ [x] := by
  induction s with
  | nil => rfl
  | cons a t ih => simp [ih]

theorem setCell_append_last (s : Sheet) (row : List Cell) (c : Nat) (f : Cell → Cell) :
    setCell (s ++ [row]) s.length c f = s ++ [setInRow row c f] := by
  unfold setCell
  simp only []
  rw [padTo_eq_self _ _ _ (by simp), getD_append_last, set_append_last]

theorem foldl_setCell_append_last (s : Sheet) (g : Cell → Cell) :
    ∀ (idxs : List Nat) (row : List Cell),
      idxs.foldl (fun sh i => setCell sh s.length i g) (s ++ [row])
        = s ++ [idxs.foldl (fun r i => setInRow r i g) row] := by
  intro idxs
  induction idxs with
  | nil => intro row; rfl
  | cons i t ih =>
    intro row
    simp only [List.foldl_cons]
    rw [setCell_append_last, ih]

/-! ## Concrete fixtures -/

/-- A root commit whose message has both a leading and a trailing newline. -/
def leadingNlCommit : GitCommit :=
  { id := "abc123"
    message := "\nFix crash\n"
    committerName := "Alice"
    committerEmail := "alice@example.com"
    time := ⟨2024, 1, 2, 3, 4, 5⟩
    parents := []
    diffStat := "" }

/-- A lone hg changeset with a well-formed author field. -/
def hgOnlyChangeset : HgChangeset :=
  { rev := "0"
    node := "ab12cd"
    tags := ""
    author := "Neil <neil@example.com>"
    desc := "initial import"
    date := ⟨2024, 1, 2, 3, 4, 5⟩ }

/-! ## Claim C4 (corrected) -/

/-- C4 counterexample: the hg accessor's constructor does not signal "not
implemented" — on a valid repository it succeeds outright; only the svn
constructor signals it. -/
theorem hg_construction_succeeds :
    hgInit true = InitOutcome.ok ∧
    ¬ hgInit true = InitOutcome.notImplemented ∧
    svnInit true = InitOutcome.notImplemented := by
  decide

/-- C4 (amended): of the two non-primary backend kinds only svn fails fast
by signalling "not implemented" (unconditionally, before any repository
access); the hg constructor instead opens the repository — succeeding on a
valid one and failing with a repository-open error otherwise. -/
theorem nonprimary_backend_construction (repoValid : Bool) :
    svnInit repoValid = InitOutcome.notImplemented ∧
    hgInit true = InitOutcome.ok ∧
    hgInit false = InitOutcome.repoOpenFailed := by
  cases repoValid <;> decide

/-! ## Claim C5 (code_bug) -/

/-- C5: with any truthy stop revision the hg backend's `get_log` raises
`AttributeError` on the very first changeset (line 107 reads `c.id.hex`,
an attribute hglib revision tuples do not have) instead of halting cleanly
after the matching entry; with no stop revision it returns one entry per
changeset without error. -/
theorem hg_stop_revision_attribute_error :
    hgGetLog (some "ab12cd") [hgOnlyChangeset] = .error .attributeError ∧
    hgGetLog none [hgOnlyChangeset] =
      .ok [{ id := "0 - ab12cd"
             msg := "initial import"
             author := "Neil "
             email := "neil@example.com"
             time := ⟨2024, 1, 2, 3, 4, 5⟩
             diff := [] }] :=
  ⟨rfl, rfl⟩

/-! ## Claim C6 (corrected) -/

/-- C6 counterexample: `c.message.strip("\n")` strips newlines on both
ends, so a leading newline is not preserved: on the message
`"\nFix crash\n"` the entry's message is `"Fix crash"`, while the claim's
trailing-only rule would keep `"\nFix crash"`. -/
theorem git_message_leading_newline_lost :
    (gitEntry leadingNlCommit).msg = "Fix crash" ∧
    specStripTrailingNewlines leadingNlCommit.message = "\nFix crash" ∧
    ¬ (gitEntry leadingNlCommit).msg
        = specStripTrailingNewlines leadingNlCommit.message := by
  decide

/-- C6 (amended): every git entry's message equals the backend's raw
commit message with newline characters stripped from both ends — leading
and trailing — and is otherwise unchanged. -/
theorem git_message_strips_newlines_both_ends (c : GitCommit) :
    (gitEntry c).msg = specStripBothNewlines c.message := by
  rfl

/-! ## Claim C10 (confirmed) -/

/-- The two extra impact-statement column names (line 201). -/
def impactExtraColumns : List String := ["Affected testcases", "Tested with version"]

theorem writeHeader_impact_columns (now : String) (w : WriterState) :
    (writeHeader .impactStatement now w).columns = w.columns ++ impactExtraColumns := by
  rfl

theorem writeHeader_history_columns (now : String) (w : WriterState) :
    (writeHeader .commitHistory now w).columns = w.columns := by
  rfl

/-- C10: `write_header` on the impact-statement writer is not idempotent on
the column set — after `n` calls the column list is the base five names
followed by `n` copies of the two extra names (so `5 + 2n` entries) —
while the commit-history writer's column list stays the base five across
repeated calls. -/
theorem write_header_column_accumulation (now : String) (n : Nat) :
    ((writeHeader .impactStatement now)^[n] initWriter).columns
        = initWriter.columns ++ (List.replicate n impactExtraColumns).flatten ∧
    ((writeHeader .impactStatement now)^[n] initWriter).columns.length = 5 + 2 * n ∧
    ((writeHeader .commitHistory now)^[n] initWriter).columns = initWriter.columns := by
  induction n with
  | zero => simp [initWriter]
  | succ n ih =>
    obtain ⟨h1, h2, h3⟩ := ih
    refine ⟨?_, ?_, ?_⟩
    · rw [Function.iterate_succ_apply', writeHeader_impact_columns, h1]
      simp [List.replicate_succ']
    · rw [Function.iterate_succ_apply', writeHeader_impact_columns, List.length_append, h2]
      simp [impactExtraColumns]
      ring
    · rw [Function.iterate_succ_apply', writeHeader_history_columns, h3]

/-! ## Split lemmas for C1 and C7 -/

theorem pySplitStr_headD (s : String) (sep : Char) :
    (pySplitStr s sep).headD "" = beforeFirst sep s := by
  unfold pySplitStr beforeFirst
  obtain ⟨t, ht⟩ := pySplitChar_head sep s.toList
  rw [ht]
  simp

/-- When the separator occurs, the split has a second piece: the text
between the first and the second occurrence. -/
theorem pySplitStr_two_pieces (s : String) (sep : Char) (h : sep ∈ s.toList) :
    ∃ t, pySplitStr s sep
      = beforeFirst sep s :: betweenFirstSecond sep s :: t := by
  unfold pySplitStr beforeFirst betweenFirstSecond
  rw [pySplitChar_mem sep _ h]
  obtain ⟨t, ht⟩ := pySplitChar_head sep ((s.toList.dropWhile (· ≠ sep)).tail)
  rw [ht]
  exact ⟨t.map (fun l => (⟨l⟩ : String)), rfl⟩

/-- When the separator does not occur, the split is the one-piece list. -/
theorem pySplitStr_one_piece (s : String) (sep : Char) (h : sep ∉ s.toList) :
    pySplitStr s sep = [s] := by
  unfold pySplitStr
  rw [pySplitChar_not_mem sep _ h]
  rfl

/-! ## Claim C1 (confirmed) -/

/-- C1: the git backend's diff-stat normalization equals the spec's rule —
split into lines, drop exactly the one final summary line (the length
guard makes the empty block a no-op rather than a negative-length slice,
so it agrees with `dropLast`), and keep each remaining line's text before
its first `|`, stripped of surrounding whitespace — and a root commit
(no parent) yields an empty changed-files list with no error. -/
theorem git_diffstat_normalization :
    (∀ s : String, normalizeDiff s = specNormalizeDiff s) ∧
    (∀ c : GitCommit, c.parents = [] → (gitEntry c).diff = []) := by
  constructor
  · intro s
    simp only [normalizeDiff, specNormalizeDiff]
    have hguard : (if (pySplitlines s).length ≥ 1 then (pySplitlines s).dropLast
        else pySplitlines s) = (pySplitlines s).dropLast := by
      cases pySplitlines s <;> simp
    rw [hguard]
    congr 1
    funext d
    rw [pySplitStr_headD]
  · intro c hc
    simp only [gitEntry, if_pos hc]
    rfl

/-- C1 witness: a two-file diff-stat block normalizes to the two bare
filenames by the spec rule, and a concrete root commit's entry has an
empty changed-files list. -/
theorem git_diffstat_normalization_witness :
    (gitEntry leadingNlCommit).diff = [] ∧
    normalizeDiff " f.txt    | 2 +-\n dir/g.c  | 1 -\n 2 files changed\n"
      = ["f.txt", "dir/g.c"] :=
  ⟨git_diffstat_normalization.2 leadingNlCommit rfl, by decide⟩

/-! ## Claim C7 (corrected) -/

/-- C7 counterexample: on the author field `"N <a<b>"` the code's email is
`"a"` (the piece between the first and second `<`), not the claim's
"remainder after the first `<` with the trailing `>` stripped", which
would be `"a<b"`. -/
theorem hg_author_email_second_lt :
    hgAuthorEmail "N <a<b>" = .ok "a" ∧
    specEmailAsStated "N <a<b>" = .ok "a<b" ∧
    ¬ hgAuthorEmail "N <a<b>" = specEmailAsStated "N <a<b>" := by
  refine ⟨rfl, rfl, ?_⟩
  intro h
  rw [show hgAuthorEmail "N <a<b>" = .ok "a" from rfl,
    show specEmailAsStated "N <a<b>" = .ok "a<b" from rfl] at h
  simp at h

/-- C7 (amended): the name is the substring before the first `<`; the
email is the substring strictly between the first `<` and the next `<`
(the whole remainder when there is only one `<`), with all trailing `>`
characters stripped; the extraction fails with a parsing error if and
only if no `<` is present in the field. -/
theorem hg_author_email_extraction :
    (∀ a : String, hgAuthorName a = beforeFirst '<' a) ∧
    (∀ a : String, hgAuthorEmail a = .error .indexError ↔ '<' ∉ a.toList) ∧
    (∀ a : String, '<' ∈ a.toList →
      hgAuthorEmail a = .ok (pyRstrip (· = '>') (betweenFirstSecond '<' a))) := by
  have hok : ∀ a : String, '<' ∈ a.toList →
      hgAuthorEmail a = .ok (pyRstrip (· = '>') (betweenFirstSecond '<' a)) := by
    intro a h
    obtain ⟨t, ht⟩ := pySplitStr_two_pieces a '<' h
    simp [hgAuthorEmail, ht]
  refine ⟨?_, ?_, hok⟩
  · intro a
    unfold hgAuthorName beforeFirst
    exact pySplitStr_headD a '<'
  · intro a
    constructor
    · intro herr hmem
      rw [hok a hmem] at herr
      simp at herr
    · intro hmem
      simp [hgAuthorEmail, pySplitStr_one_piece a '<' hmem]

/-- C7 witness: the amended extraction evaluated on a well-formed author
field and on one with no `<`. -/
theorem hg_author_email_extraction_witness :
    hgAuthorEmail "Neil <neil@example.com>" = .ok "neil@example.com" ∧
    hgAuthorEmail "anonymous" = .error .indexError := by
  constructor
  · rw [hg_author_email_extraction.2.2 "Neil <neil@example.com>" (by decide)]
    rfl
  · rw [(hg_author_email_extraction.2.1 "anonymous").2 (by decide)]

/-! ## Claim C2 (confirmed) -/

/-- C2: when the stop revision equals the identifier of commit `K`
(counting from head as commit 0, and appearing there first), the git
backend's `get_log` returns exactly `K + 1` entries, the last carrying
that identifier — the stop is inclusive; and when the stop revision
matches no commit, traversal runs to the root, emitting every commit. -/
theorem git_stop_revision_inclusive :
    (∀ (commits : List GitCommit) (k : Nat) (hk : k < commits.length) (r : String),
        r ≠ "" →
        (commits.get ⟨k, hk⟩).id = r →
        (∀ (j : Nat) (hj : j < commits.length), j < k → (commits.get ⟨j, hj⟩).id ≠ r) →
        (gitGetLog (some r) commits).length = k + 1 ∧
        ((gitGetLog (some r) commits).getLast?).map LogEntry.id = some r) ∧
    (∀ (commits : List GitCommit) (r : String),
        (∀ c ∈ commits, c.id ≠ r) →
        (gitGetLog (some r) commits).map LogEntry.id = commits.map GitCommit.id) := by
  constructor
  · intro commits
    induction commits with
    | nil =>
      intro k hk
      exact absurd hk (by simp)
    | cons c rest ih =>
      intro k hk r hr hid hfirst
      cases k with
      | zero =>
        have hc : c.id = r := hid
        have hhit : startRevHit (some r) c.id = true := by
          simp [startRevHit, hc, hr]
        have hlog : gitGetLog (some r) (c :: rest) = [gitEntry c] := by
          simp [gitGetLog, hhit]
        rw [hlog]
        exact ⟨rfl, by simp [gitEntry, hc]⟩
      | succ k =>
        have hcne : c.id ≠ r := hfirst 0 (by simp) (Nat.succ_pos k)
        have hhit : startRevHit (some r) c.id = false := by
          simp [startRevHit, hcne]
        have hk' : k < rest.length := by simpa using hk
        have hid' : (rest.get ⟨k, hk'⟩).id = r := by simpa using hid
        have hfirst' : ∀ (j : Nat) (hj : j < rest.length), j < k →
            (rest.get ⟨j, hj⟩).id ≠ r := by
          intro j hj hjk
          have h1 : j + 1 < (c :: rest).length := by simpa using Nat.succ_lt_succ hj
          have := hfirst (j + 1) h1 (Nat.succ_lt_succ hjk)
          simpa using this
        obtain ⟨hlen, hlast⟩ := ih k hk' r hr hid' hfirst'
        have hlog : gitGetLog (some r) (c :: rest) = gitEntry c :: gitGetLog (some r) rest := by
          simp [gitGetLog, hhit]
        refine ⟨?_, ?_⟩
        · rw [hlog]
          simp [hlen]
        · cases hl : gitGetLog (some r) rest with
          | nil => rw [hl] at hlen; simp at hlen
          | cons x xs =>
            rw [hl] at hlast
            rw [hlog, hl, List.getLast?_cons_cons]
            exact hlast
  · intro commits r hnone
    induction commits with
    | nil => rfl
    | cons c rest ih =>
      have hcne : c.id ≠ r := hnone c (List.mem_cons_self c rest)
      have hhit : startRevHit (some r) c.id = false := by
        simp [startRevHit, hcne]
      have ih' := ih (fun x hx => hnone x (List.mem_cons_of_mem c hx))
      simp [gitGetLog, hhit, gitEntry, ih']

/-- Three concrete commits, head first. -/
def gcommit (i : String) (ps : List String) : GitCommit :=
  { id := i
    message := "msg " ++ i
    committerName := "Alice"
    committerEmail := "alice@example.com"
    time := ⟨2024, 5, 6, 7, 8, 9⟩
    parents := ps
    diffStat := " a.txt | 1 +\n 1 file changed\n" }

/-- C2 witness: on the three-commit history `cc :: bb :: aa` with stop
revision `"bb"` (commit 1 from head), `get_log` returns 2 entries, the
last with identifier `"bb"`; with the never-matching stop revision
`"zz"` it emits all three commits down to the root. -/
theorem git_stop_revision_inclusive_witness :
    ((gitGetLog (some "bb") [gcommit "cc" ["bb"], gcommit "bb" ["aa"], gcommit "aa" []]).length = 2 ∧
      ((gitGetLog (some "bb") [gcommit "cc" ["bb"], gcommit "bb" ["aa"], gcommit "aa" []]).getLast?).map LogEntry.id = some "bb") ∧
    (gitGetLog (some "zz") [gcommit "cc" ["bb"], gcommit "bb" ["aa"], gcommit "aa" []]).map LogEntry.id
      = [gcommit "cc" ["bb"], gcommit "bb" ["aa"], gcommit "aa" []].map GitCommit.id := by
  constructor
  · exact git_stop_revision_inclusive.1
      [gcommit "cc" ["bb"], gcommit "bb" ["aa"], gcommit "aa" []] 1 (by decide) "bb"
      (by decide) (by decide)
      (by
        intro j hj hjk
        have hj0 : j = 0 := Nat.lt_one_iff.mp hjk
        subst hj0
        show (gcommit "cc" ["bb"]).id ≠ "bb"
        decide)
  · exact git_stop_revision_inclusive.2
      [gcommit "cc" ["bb"], gcommit "bb" ["aa"], gcommit "aa" []] "zz"
      (by decide)

/-! ## Writer structure: rendered rows and sheet decomposition -/

/-- The fully styled data row the `write_data` loop body leaves for one
entry, expressed at row level: the five value cells, the vertical-top
alignment pass, the identifier/message font and alignment cells, and the
left/right border pass over the first `cols` columns. -/
def renderedRow (cols : Nat) (e : LogEntry) : List Cell :=
  let row := (dataRowValues e).map valueCell
  let row := (List.range cols).foldl (fun r i => setInRow r i alignTopCell) row
  let row := setInRow row 1 monoFontCell
  let row := setInRow row 2 msgFontCell
  let row := setInRow row 2 msgAlignCell
  (List.range cols).foldl (fun r i => setInRow r i borderLRCell) row

/-- The closing bottom-border pass at row level. -/
def rowBorderLRB (cols : Nat) (row : List Cell) : List Cell :=
  (List.range cols).foldl (fun r i => setInRow r i borderLRBCell) row

/-- The closing bottom-border pass of `write_data` over a sheet's last row. -/
def borderPass (cols : Nat) (s : Sheet) : Sheet :=
  (List.range cols).foldl (fun sh i => setCell sh (s.length - 1) i borderLRBCell) s

/-- The column-name list each variant's header row renders. -/
def headerColumns (k : WriterKind) : List String :=
  match k with
  | .commitHistory => ["Date", "Commit-ID", "Message", "Author", "Changed files"]
  | .impactStatement =>
      ["Date", "Commit-ID", "Message", "Author", "Changed files",
       "Affected testcases", "Tested with version"]

/-- The styled column-header row. -/
def renderedHeaderRow (k : WriterKind) : List Cell :=
  (headerColumns k).map (fun c => styleHeaderCell (valueCell c))

/-- The title text in cell A1. -/
def titleText (k : WriterKind) : String :=
  match k with
  | .commitHistory => "Commit history"
  | .impactStatement => "Impact statement"

/-- Row 1 of the sheet: the title cell and the generation-timestamp cell. -/
def titleRowOf (k : WriterKind) (now : String) : List Cell :=
  [valueCell (titleText k), valueCell ("Generated on " ++ now)]

theorem writeDataRow_append (cols : Nat) (s : Sheet) (e : LogEntry) :
    writeDataRow cols s e = s ++ [renderedRow cols e] := by
  simp only [writeDataRow, renderedRow]
  have h1 : appendRow s (dataRowValues e) = s ++ [(dataRowValues e).map valueCell] := rfl
  rw [h1]
  have hlen : (s ++ [(dataRowValues e).map valueCell]).length - 1 = s.length := by simp
  rw [hlen]
  rw [foldl_setCell_append_last s alignTopCell]
  rw [setCell_append_last, setCell_append_last, setCell_append_last]
  rw [foldl_setCell_append_last s borderLRCell]

theorem foldl_writeDataRow (cols : Nat) (entries : List LogEntry) :
    ∀ s : Sheet, entries.foldl (writeDataRow cols) s = s ++ entries.map (renderedRow cols) := by
  induction entries with
  | nil => intro s; simp
  | cons e es ih =>
    intro s
    simp only [List.foldl_cons, List.map_cons]
    rw [writeDataRow_append, ih]
    simp

theorem writeData_sheet (entries : List LogEntry) (w : WriterState) :
    (writeData entries w).sheet
      = borderPass w.columns.length (w.sheet ++ entries.map (renderedRow w.columns.length)) := by
  simp only [writeData, borderPass]
  rw [foldl_writeDataRow]

theorem borderPass_append (cols : Nat) (s : Sheet) (row : List Cell) :
    borderPass cols (s ++ [row]) = s ++ [rowBorderLRB cols row] := by
  unfold borderPass rowBorderLRB
  have hlen : (s ++ [row]).length - 1 = s.length := by simp
  rw [hlen, foldl_setCell_append_last]

theorem writeHeader_sheet (k : WriterKind) (now : String) :
    (writeHeader k now initWriter).sheet
      = [titleRowOf k now, [], renderedHeaderRow k] := by
  cases k <;>
    simp [writeHeader, writeHeaderBase, initWriter, setCellValue, setCell, setInRow, padTo,
      appendRow, valueCell, emptyCell, styleHeaderCell, List.range_succ,
      titleRowOf, titleText, renderedHeaderRow, headerColumns]

theorem writeHeader_columns (k : WriterKind) (now : String) :
    (writeHeader k now initWriter).columns = headerColumns k := by
  cases k <;> rfl

theorem headerColumns_length (k : WriterKind) :
    (headerColumns k).length = headerWidth k := by
  cases k <;> rfl

/-- The whole export decomposed: the three header rows, one rendered row
per entry, and the closing border pass over the resulting last row. -/
theorem runExport_decomp (k : WriterKind) (now : String) (entries : List LogEntry) :
    runExport k now entries
      = borderPass (headerWidth k)
          ([titleRowOf k now, [], renderedHeaderRow k]
            ++ entries.map (renderedRow (headerWidth k))) := by
  unfold runExport
  rw [writeData_sheet, writeHeader_columns, headerColumns_length, writeHeader_sheet]

theorem runExport_nil (k : WriterKind) (now : String) :
    runExport k now []
      = [titleRowOf k now, [], rowBorderLRB (headerWidth k) (renderedHeaderRow k)] := by
  rw [runExport_decomp]
  simp only [List.map_nil, List.append_nil]
  exact borderPass_append (headerWidth k) [titleRowOf k now, []] (renderedHeaderRow k)

theorem runExport_concat (k : WriterKind) (now : String) (es : List LogEntry) (b : LogEntry) :
    runExport k now (es ++ [b])
      = ([titleRowOf k now, [], renderedHeaderRow k]
          ++ es.map (renderedRow (headerWidth k)))
        ++ [rowBorderLRB (headerWidth k) (renderedRow (headerWidth k) b)] := by
  rw [runExport_decomp, List.map_append, List.map_singleton, ← List.append_assoc]
  exact borderPass_append (headerWidth k) _ _

theorem length_renderedRow (k : WriterKind) (e : LogEntry) :
    (renderedRow (headerWidth k) e).length = headerWidth k := by
  cases k <;>
    simp [renderedRow, setInRow, padTo, valueCell, alignTopCell, monoFontCell,
      msgFontCell, msgAlignCell, borderLRCell, emptyCell, List.range_succ,
      dataRowValues, headerWidth]

theorem length_rowBorderLRB_rendered (k : WriterKind) (e : LogEntry) :
    (rowBorderLRB (headerWidth k) (renderedRow (headerWidth k) e)).length = headerWidth k := by
  cases k <;>
    simp [rowBorderLRB, renderedRow, setInRow, padTo, valueCell, alignTopCell, monoFontCell,
      msgFontCell, msgAlignCell, borderLRCell, borderLRBCell, emptyCell, List.range_succ,
      dataRowValues, headerWidth]

theorem length_rowBorderLRB_header (k : WriterKind) :
    (rowBorderLRB (headerWidth k) (renderedHeaderRow k)).length = headerWidth k := by
  cases k <;> rfl

theorem length_renderedHeaderRow (k : WriterKind) :
    (renderedHeaderRow k).length = headerWidth k := by
  cases k <;> rfl

theorem map_value_renderedRow (k : WriterKind) (e : LogEntry) :
    (renderedRow (headerWidth k) e).map Cell.value
      = dataRowValues e ++ List.replicate (headerWidth k - 5) "" := by
  cases k <;>
    simp [renderedRow, setInRow, padTo, valueCell, alignTopCell, monoFontCell,
      msgFontCell, msgAlignCell, borderLRCell, emptyCell, List.range_succ,
      dataRowValues, headerWidth]

theorem map_value_rowBorderLRB_rendered (k : WriterKind) (e : LogEntry) :
    (rowBorderLRB (headerWidth k) (renderedRow (headerWidth k) e)).map Cell.value
      = dataRowValues e ++ List.replicate (headerWidth k - 5) "" := by
  cases k <;>
    simp [rowBorderLRB, renderedRow, setInRow, padTo, valueCell, alignTopCell, monoFontCell,
      msgFontCell, msgAlignCell, borderLRCell, borderLRBCell, emptyCell, List.range_succ,
      dataRowValues, headerWidth]

/-! ## Claim C3 (confirmed) -/

/-- C3: after `write_header` and `write_data` the header row's width
equals the width of every data row — 5 columns for the commit-history
variant and 7 for the impact-statement variant (the impact variant having
extended the column list before the header row was rendered) — stated as:
every row of the sheet from the header row on (the title and spacer rows
aside) has exactly `headerWidth k` cells, and there is one data row per
entry. -/
theorem writer_header_and_data_widths (k : WriterKind) (now : String)
    (entries : List LogEntry) :
    (runExport k now entries).length = 3 + entries.length ∧
    ∀ row ∈ (runExport k now entries).drop 2, row.length = headerWidth k := by
  rcases List.eq_nil_or_concat' entries with h | ⟨es, b, h⟩
  · subst h
    rw [runExport_nil]
    refine ⟨by simp, ?_⟩
    intro row hrow
    simp only [List.drop_succ_cons, List.drop_zero] at hrow
    rw [List.mem_singleton.mp hrow]
    exact length_rowBorderLRB_header k
  · subst h
    rw [runExport_concat]
    refine ⟨by simp; omega, ?_⟩
    intro row hrow
    have hshape : ([titleRowOf k now, [], renderedHeaderRow k]
          ++ es.map (renderedRow (headerWidth k)))
        ++ [rowBorderLRB (headerWidth k) (renderedRow (headerWidth k) b)]
        = titleRowOf k now :: [] :: (renderedHeaderRow k ::
            (es.map (renderedRow (headerWidth k))
              ++ [rowBorderLRB (headerWidth k) (renderedRow (headerWidth k) b)])) := by
      simp
    rw [hshape] at hrow
    simp only [List.drop_succ_cons, List.drop_zero] at hrow
    rcases List.mem_cons.mp hrow with hrow | hrow
    · rw [hrow]; exact length_renderedHeaderRow k
    · rcases List.mem_append.mp hrow with hrow | hrow
      · obtain ⟨e, _, he⟩ := List.mem_map.mp hrow
        rw [← he]; exact length_renderedRow k e
      · rw [List.mem_singleton.mp hrow]
        exact length_rowBorderLRB_rendered k b

/-! ## Claim C9 (confirmed) -/

/-- C9: `write_data` on an empty entry sequence raises no error and
appends no rows — the sheet keeps exactly the rows `write_header` left —
and its closing bottom-border pass rewrites the column-header row's cells,
replacing their full border with a left/right/bottom-only border while
leaving their values unchanged. -/
theorem writer_empty_log_closes_header (k : WriterKind) (now : String) :
    (runExport k now []).length = (writeHeader k now initWriter).sheet.length ∧
    (∀ cl ∈ (writeHeader k now initWriter).sheet.getD 2 [],
        cl.border = some { top := true, left := true, right := true, bottom := true }) ∧
    (∀ cl ∈ (runExport k now []).getD 2 [],
        cl.border = some { top := false, left := true, right := true, bottom := true }) ∧
    ((runExport k now []).getD 2 []).map Cell.value
      = ((writeHeader k now initWriter).sheet.getD 2 []).map Cell.value := by
  rw [runExport_nil, writeHeader_sheet]
  have h1 : ([titleRowOf k now, [], renderedHeaderRow k] : Sheet).getD 2 []
      = renderedHeaderRow k := rfl
  have h2 : ([titleRowOf k now, [],
        rowBorderLRB (headerWidth k) (renderedHeaderRow k)] : Sheet).getD 2 []
      = rowBorderLRB (headerWidth k) (renderedHeaderRow k) := rfl
  rw [h1, h2]
  refine ⟨by simp, ?_, ?_, ?_⟩
  · cases k <;> decide
  · cases k <;> decide
  · cases k <;> rfl

/-! ## Claim C8 (confirmed) -/

theorem getD_append_left {α : Type} (A B : List α) (n : Nat) (d : α) (h : n < A.length) :
    (A ++ B).getD n d = A.getD n d := by
  have h2 : n < (A ++ B).length := by simp; omega
  rw [List.getD_eq_getElem _ _ h2, List.getD_eq_getElem _ _ h]
  exact List.getElem_append_left h

/-- C8: `write_data` appends exactly one row per consumed entry, whose
cell values appear in the fixed order — formatted timestamp
(`YYYY-MM-DD HH:MM:SS`), identifier, message and author rendered as text,
and the changed-files list joined by newline — and the impact-statement
variant's two extra columns hold only empty values (no synthesized
content). -/
theorem writer_data_row_content (k : WriterKind) (now : String)
    (entries : List LogEntry) (j : Nat) (hj : j < entries.length) :
    ((runExport k now entries).getD (j + 3) []).map Cell.value
      = dataRowValues (entries.get ⟨j, hj⟩) ++ List.replicate (headerWidth k - 5) "" := by
  rcases List.eq_nil_or_concat' entries with h | ⟨es, b, h⟩
  · subst h; simp at hj
  · subst h
    rw [runExport_concat]
    have hshape : ([titleRowOf k now, [], renderedHeaderRow k]
          ++ es.map (renderedRow (headerWidth k)))
        ++ [rowBorderLRB (headerWidth k) (renderedRow (headerWidth k) b)]
        = titleRowOf k now :: [] :: renderedHeaderRow k ::
            (es.map (renderedRow (headerWidth k))
              ++ [rowBorderLRB (headerWidth k) (renderedRow (headerWidth k) b)]) := by
      simp
    rw [hshape]
    have hdrop : ∀ (a b' c : List Cell) (l : Sheet) (n : Nat),
        (a :: b' :: c :: l).getD (n + 3) [] = l.getD n [] := by
      intro a b' c l n
      rfl
    rw [hdrop]
    by_cases hlt : j < es.length
    · have hmaplen : j < (es.map (renderedRow (headerWidth k))).length := by
        simpa using hlt
      rw [getD_append_left _ _ _ _ hmaplen,
        List.getD_eq_getElem _ _ hmaplen, List.getElem_map]
      have hget : (es ++ [b]).get ⟨j, hj⟩ = es[j] := by
        exact List.getElem_append_left hlt
      rw [hget]
      exact map_value_renderedRow k _
    · have hjlen : j = es.length := by
        have : j < es.length + 1 := by simpa using hj
        omega
      subst hjlen
      have hidx : es.length = (es.map (renderedRow (headerWidth k))).length := by simp
      rw [show (es.map (renderedRow (headerWidth k))
            ++ [rowBorderLRB (headerWidth k) (renderedRow (headerWidth k) b)]).getD es.length []
          = rowBorderLRB (headerWidth k) (renderedRow (headerWidth k) b) from by
        rw [hidx]
        exact getD_append_last _ _ _]
      have hget : (es ++ [b]).get ⟨es.length, hj⟩ = b := by
        simp
      rw [hget]
      exact map_value_rowBorderLRB_rendered k b

/-- A concrete canonical entry. -/
def sampleEntry : LogEntry :=
  { id := "deadbeef"
    msg := "Fix crash"
    author := "Alice"
    email := "alice@example.com"
    time := ⟨2021, 3, 4, 5, 6, 7⟩
    diff := ["f.txt", "dir/g.c"] }

/-- C8 witness: the impact-statement export of one concrete entry puts the
five formatted values in row 4 and leaves the two extra columns empty. -/
theorem writer_data_row_content_witness :
    ((runExport .impactStatement "NOW" [sampleEntry]).getD 3 []).map Cell.value
      = ["2021-03-04 05:06:07", "deadbeef", "Fix crash", "Alice", "f.txt\ndir/g.c", "", ""] := by
  have h := writer_data_row_content .impactStatement "NOW" [sampleEntry] 0 (by decide)
  rw [show (([sampleEntry] : List LogEntry).get ⟨0, by decide⟩) = sampleEntry from rfl] at h
  rw [show dataRowValues sampleEntry
      = ["2021-03-04 05:06:07", "deadbeef", "Fix crash", "Alice", "f.txt\ndir/g.c"] from rfl] at h
  exact h

end ScmToXls
